import Mathlib

/-!
Shallow embedding of parts of the libipt Intel Processor Trace library
(`pt_state.c`, `pt_section_windows.c`, `intel-pt.h`) together with proofs
about the event queues, the decoder cursor, section reads, section mapping
and the packet constants.

Machine integers are embedded as `Nat`/`Int`, with an explicit modulus where
C unsigned wrap-around matters (the `uint8_t` queue indices stay below
`evb_max_pend` by construction, the `uint16_t` map count wraps at `65536`).
Nullable pointers are embedded as `Option`.
-/

/-! ### Error codes (`enum pt_error_code`, intel-pt.h)

The enumerators are consecutive starting at `pte_ok = 0`.  C functions report
an error `pte_x` by returning the negative value `-pte_x`. -/

def pte_ok : Int := 0
def pte_internal : Int := 1
def pte_invalid : Int := 2
def pte_nosync : Int := 3
def pte_bad_opc : Int := 4
def pte_bad_packet : Int := 5
def pte_bad_context : Int := 6
def pte_eos : Int := 7
def pte_bad_query : Int := 8
def pte_nomem : Int := 9
def pte_bad_config : Int := 10
def pte_noip : Int := 11
def pte_ip_suppressed : Int := 12
def pte_nomap : Int := 13
def pte_bad_insn : Int := 14
def pte_no_time : Int := 15
def pte_no_cbr : Int := 16
def pte_bad_image : Int := 17
def pte_bad_lock : Int := 18
def pte_not_supported : Int := 19

/-! ### Opcode and PSB constants (intel-pt.h) -/

def pt_opc_pad : Nat := 0x00
def pt_opc_ext : Nat := 0x02
def pt_opc_psb : Nat := pt_opc_ext
def pt_ext_psb : Nat := 0x82

/-- Size of the PSB opcode in bytes (`pt_opcs_psb`, enum `pt_opcode_size`). -/
def pt_opcs_psb : Nat := 2

/-- High byte of the PSB pattern (`pt_psb_hi = pt_opc_psb`). -/
def pt_psb_hi : Nat := pt_opc_psb

/-- Low byte of the PSB pattern (`pt_psb_lo = pt_ext_psb`). -/
def pt_psb_lo : Nat := pt_ext_psb

/-- Repeat count of the PSB payload pattern, not including opc and ext
(`pt_psb_repeat_count`). -/
def pt_psb_repeat_count : Nat := 7

/-- Size of the repeated PSB pattern in bytes (`pt_psb_repeat_size`). -/
def pt_psb_repeat_size : Nat := 2

/-- Size of a PSB packet's payload in bytes
(`pt_pl_psb_size = pt_psb_repeat_count * pt_psb_repeat_size`). -/
def pt_pl_psb_size : Nat := pt_psb_repeat_count * pt_psb_repeat_size

/-- Total size of a PSB packet in bytes
(`ptps_psb = pt_opcs_psb + pt_pl_psb_size`, enum `pt_packet_size`). -/
def ptps_psb : Nat := pt_opcs_psb + pt_pl_psb_size

/-- Byte sequence of a complete PSB packet: the 2 opcode bytes
`pt_opc_psb, pt_ext_psb` followed by the payload, which is the 2-byte
pattern `pt_psb_hi, pt_psb_lo` repeated `pt_psb_repeat_count` times. -/
def psbPacketBytes : List Nat :=
  [pt_opc_psb, pt_ext_psb] ++
    (List.replicate pt_psb_repeat_count [pt_psb_hi, pt_psb_lo]).flatten

/-! ### Execution modes (intel-pt.h) -/

/-- Enum `pt_exec_mode`. -/
inductive PtExecMode where
  | ptem_unknown
  | ptem_16bit
  | ptem_32bit
  | ptem_64bit
deriving DecidableEq, Repr

/-- Struct `pt_packet_mode_exec`: the `csl` and `csd` single-bit fields of a
MODE.Exec packet, embedded as booleans. -/
structure PtPacketModeExec where
  csl : Bool
  csd : Bool
deriving DecidableEq, Repr

/-- Function `pt_get_exec_mode` (intel-pt.h). -/
def pt_get_exec_mode (packet : PtPacketModeExec) : PtExecMode :=
  if packet.csl then
    if packet.csd then .ptem_unknown else .ptem_64bit
  else
    if packet.csd then .ptem_32bit else .ptem_16bit

/-- Function `pt_set_exec_mode` (intel-pt.h).  The `default` case of the C
switch covers `ptem_unknown` and any other value; on the closed enum it is
exactly `ptem_unknown`. -/
def pt_set_exec_mode (mode : PtExecMode) : PtPacketModeExec :=
  match mode with
  | .ptem_64bit => ⟨true, false⟩
  | .ptem_32bit => ⟨false, true⟩
  | .ptem_16bit => ⟨false, false⟩
  | .ptem_unknown => ⟨true, true⟩

/-! ### Decoder position accessors (`pt_get_decoder_pos`, `pt_get_decoder_sync`,
pt_state.c)

Only the fields these functions read are embedded: the trace-buffer base
pointer `config.begin` (returned by `pt_begin`), the current position
`decoder->pos` and the last synchronization point `decoder->sync`.  Pointers
are embedded as `Option Nat` addresses; the whole decoder argument is an
`Option` to cover the NULL-decoder check. -/

structure PtSyncDecoder where
  cfg_begin : Option Nat
  pos : Option Nat
  sync : Option Nat
deriving DecidableEq, Repr

/-- Function `pt_get_decoder_pos` (pt_state.c): returns the cursor's offset
`pos - begin` as a `uint64_t`, or `0` when the decoder is NULL, the position
is NULL or the buffer base is NULL. -/
def pt_get_decoder_pos (decoder : Option PtSyncDecoder) : Nat :=
  match decoder with
  | none => 0
  | some dec =>
    match dec.pos with
    | none => 0
    | some raw =>
      match dec.cfg_begin with
      | none => 0
      | some b => raw - b

/-- Function `pt_get_decoder_sync` (pt_state.c): returns `sync - begin`, or
`0` when the decoder is NULL, the sync point is NULL or the buffer base is
NULL. -/
def pt_get_decoder_sync (decoder : Option PtSyncDecoder) : Nat :=
  match decoder with
  | none => 0
  | some dec =>
    match dec.sync with
    | none => 0
    | some s =>
      match dec.cfg_begin with
      | none => 0
      | some b => s - b

/-! ## Theorems for the constant and accessor claims -/

/-- C8: a PSB packet is exactly 16 bytes consisting of the byte pattern
`0x02 0x82` repeated 8 times: `pt_psb_hi = 0x02`, `pt_psb_lo = 0x82`, the
payload is the 2-byte pattern repeated `pt_psb_repeat_count = 7` times after
the 2 opcode bytes, and `ptps_psb = pt_opcs_psb + pt_pl_psb_size = 16`. -/
theorem psb_packet_constants :
    pt_psb_hi = 0x02 ∧ pt_psb_lo = 0x82 ∧
    pt_psb_repeat_count = 7 ∧
    pt_pl_psb_size = pt_psb_repeat_count * pt_psb_repeat_size ∧
    ptps_psb = pt_opcs_psb + pt_pl_psb_size ∧ ptps_psb = 16 ∧
    psbPacketBytes = (List.replicate 8 [0x02, 0x82]).flatten ∧
    psbPacketBytes.length = ptps_psb := by
  decide

/-- C9: for every execution mode, encoding it as MODE.Exec `(csl, csd)` bits
with `pt_set_exec_mode` and decoding with `pt_get_exec_mode` returns the
original mode: the encoding is lossless on all four modes. -/
theorem exec_mode_round_trip (m : PtExecMode) :
    pt_get_exec_mode (pt_set_exec_mode m) = m := by
  cases m <;> rfl

/-- C10: `pt_get_decoder_pos` and `pt_get_decoder_sync` return 0 — not an
error code — for a NULL decoder or an unset position / sync pointer, so an
unsynchronized decoder is indistinguishable at this interface from one
positioned exactly at buffer offset 0. -/
theorem decoder_pos_sync_zero :
    pt_get_decoder_pos none = 0 ∧ pt_get_decoder_sync none = 0 ∧
    (∀ dec : PtSyncDecoder, dec.pos = none →
      pt_get_decoder_pos (some dec) = 0) ∧
    (∀ dec : PtSyncDecoder, dec.sync = none →
      pt_get_decoder_sync (some dec) = 0) ∧
    (∀ (dec : PtSyncDecoder) (b : Nat), dec.cfg_begin = some b →
      dec.pos = some b → pt_get_decoder_pos (some dec) = 0) ∧
    (∀ (dec : PtSyncDecoder) (b : Nat), dec.cfg_begin = some b →
      dec.sync = some b → pt_get_decoder_sync (some dec) = 0) := by
  refine ⟨rfl, rfl, ?_, ?_, ?_, ?_⟩
  · intro dec h
    simp [pt_get_decoder_pos, h]
  · intro dec h
    simp [pt_get_decoder_sync, h]
  · intro dec b hb hp
    simp [pt_get_decoder_pos, hb, hp]
  · intro dec b hb hs
    simp [pt_get_decoder_sync, hb, hs]

/-- Witness for C10 at concrete inputs: an unsynchronized decoder with no
position, and a decoder positioned at the buffer base, both report offset 0. -/
theorem decoder_pos_sync_zero_witness :
    pt_get_decoder_pos (some ⟨some 3, none, none⟩) = 0 ∧
    pt_get_decoder_pos (some ⟨some 3, some 3, some 3⟩) = 0 := by
  exact ⟨decoder_pos_sync_zero.2.2.1 ⟨some 3, none, none⟩ rfl,
    decoder_pos_sync_zero.2.2.2.2.1 ⟨some 3, some 3, some 3⟩ 3 rfl rfl⟩

/-! ### Event queues (pt_state.c)

Each of the four event bindings (`evb_psbend`, `evb_tip`, `evb_fup`; plus the
immediate binding) owns an independent ring: `decoder->ev_begin[evb]`,
`decoder->ev_end[evb]` and the slot array `decoder->ev_pend[evb]`.  The queue
functions touch only the ring selected by their `evb` argument, so the
embedding works on a single binding's ring; the C functions' `!decoder` and
`evb_max <= evb` argument guards merely select the ring (returning NULL for
invalid arguments) and do not affect any ring's state. -/

/-- Modelled from the spec: the ring size `evb_max_pend` is declared in
`pt_state.h`, which is not among the sources at hand.  The spec sizes each
per-binding ring at no fewer than 9 stored slots ("Per-binding bounded ring,
capacity N ≥ 9"; "A bounded ring per binding, sized at ≥ 9 slots"); we use
the minimal size 9. -/
def evb_max_pend : Nat := 9

/-- Struct `pt_event`: the queue operations never inspect the event body, so
it is embedded as the `type` field used by `pt_find_event` plus an abstract
payload. -/
structure PtEvent where
  type : Nat
  data : Nat
deriving DecidableEq, Repr

/-- An all-zero event, as produced by the `memset` in `pt_enqueue_event`. -/
def zeroEvent : PtEvent := ⟨0, 0⟩

/-- One per-binding event ring of `struct pt_decoder`: the `uint8_t` indices
`ev_begin[evb]` and `ev_end[evb]` and the slot array `ev_pend[evb]`. -/
structure EvQueue where
  ev_begin : Nat
  ev_end : Nat
  ev_pend : Nat → PtEvent

/-- Function `pt_queue_inc` (pt_state.c): advance a ring index by one,
wrapping at `evb_max_pend`. -/
def pt_queue_inc (idx : Nat) : Nat :=
  (idx + 1) % evb_max_pend

/-- Function `pt_enqueue_event` (pt_state.c), on the ring of one binding.
The C function returns a pointer to the claimed slot, which the caller fills
in; the embedding takes the event value `e` the caller stores there.  It
fails (C: returns NULL, leaving the ring untouched) when an index is out of
range or when advancing `ev_end` would close the two-slot gap
(`begin == gap` with `gap = end + 2` after wrapping). -/
def pt_enqueue_event (q : EvQueue) (e : PtEvent) : Option EvQueue :=
  if evb_max_pend ≤ q.ev_begin then none
  else if evb_max_pend ≤ q.ev_end then none
  else
    let end1 := pt_queue_inc q.ev_end
    let gap := pt_queue_inc end1
    if q.ev_begin = gap then none
    else some { q with ev_end := end1,
                       ev_pend := fun i => if i = q.ev_end then e else q.ev_pend i }

/-- Function `pt_dequeue_event` (pt_state.c), on the ring of one binding:
returns NULL when an index is out of range or the ring is empty
(`begin == end`); otherwise returns the event at `ev_begin` and advances
`ev_begin`. -/
def pt_dequeue_event (q : EvQueue) : Option (PtEvent × EvQueue) :=
  if evb_max_pend ≤ q.ev_begin then none
  else if evb_max_pend ≤ q.ev_end then none
  else if q.ev_begin = q.ev_end then none
  else some (q.ev_pend q.ev_begin, { q with ev_begin := pt_queue_inc q.ev_begin })

/-- Number of events currently held by a ring: the circular distance from
`ev_begin` to `ev_end`. -/
def queueCount (q : EvQueue) : Nat :=
  (q.ev_end + evb_max_pend - q.ev_begin) % evb_max_pend

/-- The events held by a ring, from head (`ev_begin`) to tail, as a list. -/
def queueList (q : EvQueue) : List PtEvent :=
  (List.range (queueCount q)).map fun i => q.ev_pend ((q.ev_begin + i) % evb_max_pend)

/-- Well-formedness of the `uint8_t` ring indices: both lie below the ring
size, as they do in every state the code constructs. -/
def QueueWF (q : EvQueue) : Prop :=
  q.ev_begin < evb_max_pend ∧ q.ev_end < evb_max_pend

/-! Arithmetic facts about the ring indices, settled by enumeration over the
9 * 9 possible index pairs. -/

theorem ringIdx_full_iff : ∀ b < evb_max_pend, ∀ e < evb_max_pend,
    (b = pt_queue_inc (pt_queue_inc e) ↔
      (e + evb_max_pend - b) % evb_max_pend = evb_max_pend - 2) := by
  decide

theorem ringIdx_count_ne_eight : ∀ b < evb_max_pend, ∀ e < evb_max_pend,
    (b = pt_queue_inc e ↔
      (e + evb_max_pend - b) % evb_max_pend = evb_max_pend - 1) := by
  decide

theorem ringIdx_no_hit : ∀ b < evb_max_pend, ∀ e < evb_max_pend,
    ∀ i < evb_max_pend, i < (e + evb_max_pend - b) % evb_max_pend →
      (b + i) % evb_max_pend ≠ e := by
  decide

theorem ringIdx_tail_slot : ∀ b < evb_max_pend, ∀ e < evb_max_pend,
    (b + (e + evb_max_pend - b) % evb_max_pend) % evb_max_pend = e := by
  decide

theorem ringIdx_enq_count : ∀ b < evb_max_pend, ∀ e < evb_max_pend,
    b ≠ pt_queue_inc (pt_queue_inc e) → b ≠ pt_queue_inc e →
      (pt_queue_inc e + evb_max_pend - b) % evb_max_pend =
        (e + evb_max_pend - b) % evb_max_pend + 1 := by
  decide

theorem ringIdx_deq_count : ∀ b < evb_max_pend, ∀ e < evb_max_pend, b ≠ e →
    (e + evb_max_pend - pt_queue_inc b) % evb_max_pend + 1 =
      (e + evb_max_pend - b) % evb_max_pend := by
  decide

theorem ringIdx_deq_shift : ∀ b < evb_max_pend, ∀ i < evb_max_pend,
    (pt_queue_inc b + i) % evb_max_pend = (b + (i + 1)) % evb_max_pend := by
  decide

theorem ringIdx_empty_iff : ∀ b < evb_max_pend, ∀ e < evb_max_pend,
    (b = e ↔ (e + evb_max_pend - b) % evb_max_pend = 0) := by
  decide

theorem ringIdx_count_lt : ∀ b < evb_max_pend, ∀ e < evb_max_pend,
    (e + evb_max_pend - b) % evb_max_pend < evb_max_pend := by
  decide

/-- Enqueue fails exactly on the full condition: when the ring already holds
`evb_max_pend - 2` events, `pt_enqueue_event` returns NULL without touching
the ring. -/
theorem pt_enqueue_event_none (q : EvQueue) (e : PtEvent) (hwf : QueueWF q)
    (hfull : queueCount q = evb_max_pend - 2) :
    pt_enqueue_event q e = none := by
  obtain ⟨hb, he⟩ := hwf
  have hfullb : q.ev_begin = pt_queue_inc (pt_queue_inc q.ev_end) :=
    (ringIdx_full_iff q.ev_begin hb q.ev_end he).2 hfull
  simp only [pt_enqueue_event, if_neg (Nat.not_le.2 hb), if_neg (Nat.not_le.2 he)]
  exact if_pos hfullb

/-- Enqueue succeeds below the full condition and appends the event at the
tail of the queue. -/
theorem pt_enqueue_event_some (q : EvQueue) (e : PtEvent) (hwf : QueueWF q)
    (hinv : queueCount q ≤ evb_max_pend - 2)
    (hne : queueCount q ≠ evb_max_pend - 2) :
    ∃ q', pt_enqueue_event q e = some q' ∧ QueueWF q' ∧
      queueCount q' = queueCount q + 1 ∧
      queueList q' = queueList q ++ [e] := by
  obtain ⟨hb, he⟩ := hwf
  have hgap : q.ev_begin ≠ pt_queue_inc (pt_queue_inc q.ev_end) := fun h =>
    hne ((ringIdx_full_iff q.ev_begin hb q.ev_end he).1 h)
  have hone : q.ev_begin ≠ pt_queue_inc q.ev_end := by
    intro h
    have h8 := (ringIdx_count_ne_eight q.ev_begin hb q.ev_end he).1 h
    have : queueCount q = evb_max_pend - 1 := h8
    omega
  refine ⟨⟨q.ev_begin, pt_queue_inc q.ev_end,
      fun i => if i = q.ev_end then e else q.ev_pend i⟩, ?_, ?_, ?_, ?_⟩
  · simp only [pt_enqueue_event, if_neg (Nat.not_le.2 hb), if_neg (Nat.not_le.2 he)]
    exact if_neg hgap
  · exact ⟨hb, Nat.mod_lt _ (by decide)⟩
  · exact ringIdx_enq_count q.ev_begin hb q.ev_end he hgap hone
  · have hcount : queueCount ⟨q.ev_begin, pt_queue_inc q.ev_end,
        fun i => if i = q.ev_end then e else q.ev_pend i⟩ =
        queueCount q + 1 :=
      ringIdx_enq_count q.ev_begin hb q.ev_end he hgap hone
    simp only [queueList, hcount, List.range_succ, List.map_append, List.map_cons,
      List.map_nil]
    congr 1
    · refine List.map_congr_left fun i hi => ?_
      have hi9 : i < evb_max_pend := by
        have := ringIdx_count_lt q.ev_begin hb q.ev_end he
        have := List.mem_range.1 hi
        show i < evb_max_pend
        omega
      have hmiss : (q.ev_begin + i) % evb_max_pend ≠ q.ev_end :=
        ringIdx_no_hit q.ev_begin hb q.ev_end he i hi9 (List.mem_range.1 hi)
      simp [hmiss]
    · have hslot : (q.ev_begin + queueCount q) % evb_max_pend = q.ev_end :=
        ringIdx_tail_slot q.ev_begin hb q.ev_end he
      simp [hslot]

/-- Dequeue returns NULL exactly when the ring is empty (`begin == end`). -/
theorem pt_dequeue_event_none_iff (q : EvQueue) (hwf : QueueWF q) :
    pt_dequeue_event q = none ↔ q.ev_begin = q.ev_end := by
  obtain ⟨hb, he⟩ := hwf
  simp only [pt_dequeue_event, if_neg (Nat.not_le.2 hb), if_neg (Nat.not_le.2 he)]
  by_cases hcase : q.ev_begin = q.ev_end
  · simp [hcase]
  · simp [hcase]

/-- Dequeue of a non-empty ring returns the head of the queue and leaves the
tail. -/
theorem pt_dequeue_event_some (q : EvQueue) (hwf : QueueWF q)
    (hne : q.ev_begin ≠ q.ev_end) :
    ∃ v q', pt_dequeue_event q = some (v, q') ∧ QueueWF q' ∧
      queueCount q = queueCount q' + 1 ∧
      queueList q = v :: queueList q' := by
  obtain ⟨hb, he⟩ := hwf
  refine ⟨q.ev_pend q.ev_begin, { q with ev_begin := pt_queue_inc q.ev_begin },
    ?_, ?_, ?_, ?_⟩
  · simp only [pt_dequeue_event, if_neg (Nat.not_le.2 hb), if_neg (Nat.not_le.2 he)]
    exact if_neg hne
  · exact ⟨Nat.mod_lt _ (by decide), he⟩
  · exact (ringIdx_deq_count q.ev_begin hb q.ev_end he hne).symm
  · have hcount : queueCount q = queueCount { q with ev_begin := pt_queue_inc q.ev_begin } + 1 :=
      (ringIdx_deq_count q.ev_begin hb q.ev_end he hne).symm
    rw [queueList, hcount, List.range_succ_eq_map, List.map_cons, List.map_map]
    congr 1
    · simp [Nat.mod_eq_of_lt hb]
    · rw [queueList]
      refine (List.map_congr_left fun i hi => ?_).symm
      have hi9 : i < evb_max_pend := by
        have h1 := List.mem_range.1 hi
        have h2 := ringIdx_count_lt q.ev_begin hb q.ev_end he
        have h3 : queueCount q =
            (q.ev_end + evb_max_pend - q.ev_begin) % evb_max_pend := rfl
        omega
      have := ringIdx_deq_shift q.ev_begin hb i hi9
      simp [Function.comp, this]

/-- The empty ring, as initialized by `pt_alloc_decoder`'s `calloc` and by
`pt_discard_events`. -/
def emptyQueue : EvQueue := ⟨0, 0, fun _ => zeroEvent⟩

/-- Queue state with `ev_begin = 0` and `ev_end = 7`, holding
`evb_max_pend - 2 = 7` events: the state reached by seven successful
enqueues on the empty ring. -/
def sevenQueue : EvQueue := ⟨0, 7, fun _ => zeroEvent⟩

/-- C1 (amended): `pt_enqueue_event` succeeds and appends at the tail
whenever the ring holds fewer than its stored capacity minus two events, and
returns NULL with the ring unchanged exactly when it holds stored capacity
minus two: the ring reserves two slots, one to distinguish full from empty
and one more so the most recently dequeued slot is never overwritten. -/
theorem pt_enqueue_event_capacity (q : EvQueue) (e : PtEvent) (hwf : QueueWF q)
    (hinv : queueCount q ≤ evb_max_pend - 2) :
    (queueCount q < evb_max_pend - 2 →
      ∃ q', pt_enqueue_event q e = some q' ∧
        queueList q' = queueList q ++ [e]) ∧
    (queueCount q = evb_max_pend - 2 → pt_enqueue_event q e = none) := by
  constructor
  · intro hlt
    obtain ⟨q', h1, _, _, h4⟩ := pt_enqueue_event_some q e hwf hinv (by omega)
    exact ⟨q', h1, h4⟩
  · intro hfull
    exact pt_enqueue_event_none q e hwf hfull

/-- Witness for C1 at the empty ring. -/
theorem pt_enqueue_event_capacity_witness :
    queueCount emptyQueue ≤ evb_max_pend - 2 ∧
    ((queueCount emptyQueue < evb_max_pend - 2 →
      ∃ q', pt_enqueue_event emptyQueue zeroEvent = some q' ∧
        queueList q' = queueList emptyQueue ++ [zeroEvent]) ∧
     (queueCount emptyQueue = evb_max_pend - 2 →
      pt_enqueue_event emptyQueue zeroEvent = none)) :=
  ⟨by decide, pt_enqueue_event_capacity emptyQueue zeroEvent
    (by unfold QueueWF; decide) (by decide)⟩

/-- Counterexample to C1 as stated: a ring holding 7 events — fewer than its
stored capacity minus one (8) — on which `pt_enqueue_event` nevertheless
returns NULL: the code checks `begin == gap` with a two-slot gap, not the
single reserved slot the claim describes. -/
theorem pt_enqueue_event_one_slot_cex :
    queueCount sevenQueue < evb_max_pend - 1 ∧
    pt_enqueue_event sevenQueue zeroEvent = none := by
  exact ⟨by decide, rfl⟩

/-- A client call on one binding's event queue. -/
inductive QOp where
  | enq : PtEvent → QOp
  | deq : QOp
deriving DecidableEq, Repr

/-- Run a sequence of calls against the C ring, recording every
`pt_dequeue_event` result (`none` for a NULL return).  An enqueue that hits
the full condition leaves the ring unchanged, as the C code does. -/
def runRing : List QOp → EvQueue → List (Option PtEvent) × EvQueue
  | [], q => ([], q)
  | QOp.enq e :: ops, q =>
    match pt_enqueue_event q e with
    | none => runRing ops q
    | some q' => runRing ops q'
  | QOp.deq :: ops, q =>
    match pt_dequeue_event q with
    | none =>
      let r := runRing ops q
      (none :: r.1, r.2)
    | some (v, q') =>
      let r := runRing ops q'
      (some v :: r.1, r.2)

/-- Decides whether every enqueue in the call sequence succeeds (no enqueue
hits the full condition). -/
def noFull : List QOp → EvQueue → Bool
  | [], _ => true
  | QOp.enq e :: ops, q =>
    match pt_enqueue_event q e with
    | none => false
    | some q' => noFull ops q'
  | QOp.deq :: ops, q =>
    match pt_dequeue_event q with
    | none => noFull ops q
    | some (_, q') => noFull ops q'

/-- The same call sequence run against the obviously-FIFO reference queue: a
list with enqueue appending at the back and dequeue taking the front,
reporting `none` exactly on the empty list. -/
def runListQ : List QOp → List PtEvent → List (Option PtEvent) × List PtEvent
  | [], l => ([], l)
  | QOp.enq e :: ops, l => runListQ ops (l ++ [e])
  | QOp.deq :: ops, l =>
    match l with
    | [] =>
      let r := runListQ ops []
      (none :: r.1, r.2)
    | v :: rest =>
      let r := runListQ ops rest
      (some v :: r.1, r.2)

/-- Simulation: as long as no enqueue hits the full condition, the C ring and
the FIFO reference queue produce identical dequeue traces. -/
theorem runRing_sim (ops : List QOp) (q : EvQueue) (hwf : QueueWF q)
    (hinv : queueCount q ≤ evb_max_pend - 2) (hnf : noFull ops q = true) :
    (runRing ops q).1 = (runListQ ops (queueList q)).1 := by
  induction ops generalizing q with
  | nil => rfl
  | cons op ops ih =>
    cases op with
    | enq e =>
      by_cases hfull : queueCount q = evb_max_pend - 2
      · exfalso
        have hnone := pt_enqueue_event_none q e hwf hfull
        simp only [noFull, hnone] at hnf
        exact Bool.false_ne_true hnf
      · obtain ⟨q', h1, h2, h3, h4⟩ := pt_enqueue_event_some q e hwf hinv hfull
        simp only [noFull, h1] at hnf
        simp only [runRing, h1, runListQ]
        rw [← h4]
        have ha : evb_max_pend = 9 := rfl
        exact ih q' h2 (by omega) hnf
    | deq =>
      by_cases hempty : q.ev_begin = q.ev_end
      · have hnone : pt_dequeue_event q = none :=
          (pt_dequeue_event_none_iff q hwf).2 hempty
        have h0 : queueCount q = 0 :=
          (ringIdx_empty_iff q.ev_begin hwf.1 q.ev_end hwf.2).1 hempty
        have hlist : queueList q = [] := by
          simp [queueList, h0]
        simp only [noFull, hnone] at hnf
        simp only [runRing, hnone, hlist, runListQ]
        rw [ih q hwf hinv hnf, hlist]
      · obtain ⟨v, q', h1, h2, h3, h4⟩ := pt_dequeue_event_some q hwf hempty
        simp only [noFull, h1] at hnf
        simp only [runRing, h1, h4, runListQ]
        have ha : evb_max_pend = 9 := rfl
        rw [ih q' h2 (by omega) hnf]

/-- C2: for every sequence of enqueue / dequeue calls on one binding's queue
in which no enqueue hits the full condition, `pt_dequeue_event` returns the
queued events in exactly the order they were enqueued — the dequeue trace of
the C ring equals that of the FIFO reference queue — and it returns NULL
precisely when the queue is empty (`ev_begin == ev_end`). -/
theorem pt_event_queue_fifo (ops : List QOp) (q : EvQueue) (hwf : QueueWF q)
    (hinv : queueCount q ≤ evb_max_pend - 2) (hnf : noFull ops q = true) :
    (runRing ops q).1 = (runListQ ops (queueList q)).1 ∧
    ∀ q0 : EvQueue, QueueWF q0 →
      (pt_dequeue_event q0 = none ↔ q0.ev_begin = q0.ev_end) :=
  ⟨runRing_sim ops q hwf hinv hnf, fun q0 h => pt_dequeue_event_none_iff q0 h⟩

/-- A concrete call sequence for the C2 witness: two enqueues followed by
three dequeues (the last one on an empty queue). -/
def fifoOps : List QOp := [QOp.enq ⟨1, 10⟩, QOp.enq ⟨2, 20⟩, QOp.deq, QOp.deq, QOp.deq]

/-- Witness for C2 at a concrete call sequence on the empty ring. -/
theorem pt_event_queue_fifo_witness :
    (runRing fifoOps emptyQueue).1 = (runListQ fifoOps (queueList emptyQueue)).1 ∧
    ∀ q0 : EvQueue, QueueWF q0 →
      (pt_dequeue_event q0 = none ↔ q0.ev_begin = q0.ev_end) :=
  pt_event_queue_fifo fifoOps emptyQueue (by unfold QueueWF; decide) (by decide)
    (by rfl)

/-! ### Cursor advance (`pt_advance`, pt_state.c)

Only the fields `pt_advance` touches are embedded: the trace buffer bounds
`config.begin` / `config.end` and the cursor `decoder->pos`.  Pointers are
embedded as `Nat` addresses; the signed `int` advance amount is an `Int`.
The C pointer arithmetic `decoder->pos + size` is carried out in `Int` and
converted back to an address only after the bounds checks admit it. -/

structure PtPosDecoder where
  cfg_begin : Nat
  cfg_end : Nat
  pos : Nat
deriving DecidableEq, Repr

/-- Function `pt_advance` (pt_state.c): add the signed `size` to the cursor;
fail with `-pte_invalid` on a NULL decoder and with `-pte_eos` when the new
position falls before `config.begin` or behind `config.end`, moving the
cursor only on success.  Returns the status and the decoder after the
call. -/
def pt_advance (decoder : Option PtPosDecoder) (size : Int) :
    Int × Option PtPosDecoder :=
  match decoder with
  | none => (-pte_invalid, none)
  | some dec =>
    let p : Int := (dec.pos : Int) + size
    if p < (dec.cfg_begin : Int) then (-pte_eos, some dec)
    else if (dec.cfg_end : Int) < p then (-pte_eos, some dec)
    else (0, some { dec with pos := p.toNat })

/-- C3: from any cursor inside the buffer, `pt_advance` either returns 0 with
the new cursor again inside the buffer, or returns `-pte_eos` exactly when
the advanced position would lie outside the buffer; in every case the
resulting cursor never exceeds `config.end`. -/
theorem pt_advance_bounds (dec : PtPosDecoder) (size : Int)
    (h1 : dec.cfg_begin ≤ dec.pos) (h2 : dec.pos ≤ dec.cfg_end) :
    (((pt_advance (some dec) size).1 = 0 ∧
      (dec.cfg_begin : Int) ≤ (dec.pos : Int) + size ∧
      (dec.pos : Int) + size ≤ (dec.cfg_end : Int) ∧
      ∃ dec', (pt_advance (some dec) size).2 = some dec' ∧
        dec'.cfg_begin = dec.cfg_begin ∧ dec'.cfg_end = dec.cfg_end ∧
        dec'.cfg_begin ≤ dec'.pos ∧ dec'.pos ≤ dec'.cfg_end ∧
        (dec'.pos : Int) = (dec.pos : Int) + size) ∨
     ((pt_advance (some dec) size).1 = -pte_eos ∧
      ((dec.pos : Int) + size < (dec.cfg_begin : Int) ∨
        (dec.cfg_end : Int) < (dec.pos : Int) + size))) ∧
    ∀ dec', (pt_advance (some dec) size).2 = some dec' →
      dec'.pos ≤ dec.cfg_end := by
  simp only [pt_advance]
  split
  · next hlt =>
    refine ⟨Or.inr ⟨rfl, Or.inl hlt⟩, ?_⟩
    intro dec' hdec'
    cases hdec'
    exact h2
  · next hge =>
    split
    · next hgt =>
      refine ⟨Or.inr ⟨rfl, Or.inr hgt⟩, ?_⟩
      intro dec' hdec'
      cases hdec'
      exact h2
    · next hle =>
      constructor
      · refine Or.inl ⟨rfl, by omega, by omega,
          ⟨{ dec with pos := ((dec.pos : Int) + size).toNat }, rfl, rfl, rfl,
            ?_, ?_, ?_⟩⟩
        · show dec.cfg_begin ≤ ((dec.pos : Int) + size).toNat
          omega
        · show ((dec.pos : Int) + size).toNat ≤ dec.cfg_end
          omega
        · show ((((dec.pos : Int) + size).toNat : Nat) : Int) = (dec.pos : Int) + size
          omega
      · intro dec' hdec'
        cases hdec'
        show ((dec.pos : Int) + size).toNat ≤ dec.cfg_end
        omega

/-- Witness for C3: a cursor at offset 5 of a 10-byte buffer advanced by 3. -/
theorem pt_advance_bounds_witness :
    (((pt_advance (some ⟨0, 10, 5⟩) 3).1 = 0 ∧
      ((0 : Nat) : Int) ≤ ((5 : Nat) : Int) + 3 ∧
      ((5 : Nat) : Int) + 3 ≤ ((10 : Nat) : Int) ∧
      ∃ dec', (pt_advance (some ⟨0, 10, 5⟩) 3).2 = some dec' ∧
        dec'.cfg_begin = (0 : Nat) ∧ dec'.cfg_end = (10 : Nat) ∧
        dec'.cfg_begin ≤ dec'.pos ∧ dec'.pos ≤ dec'.cfg_end ∧
        (dec'.pos : Int) = ((5 : Nat) : Int) + 3) ∨
     ((pt_advance (some ⟨0, 10, 5⟩) 3).1 = -pte_eos ∧
      (((5 : Nat) : Int) + 3 < ((0 : Nat) : Int) ∨
        ((10 : Nat) : Int) < ((5 : Nat) : Int) + 3))) ∧
    ∀ dec', (pt_advance (some ⟨0, 10, 5⟩) 3).2 = some dec' →
      dec'.pos ≤ (10 : Nat) :=
  pt_advance_bounds ⟨0, 10, 5⟩ 3 (by decide) (by decide)

/-- C4: whenever `pt_advance` returns a negative error (`-pte_invalid` or
`-pte_eos`), the decoder — in particular its cursor — is left completely
unchanged. -/
theorem pt_advance_error_frame (decoder : Option PtPosDecoder) (size : Int)
    (herr : (pt_advance decoder size).1 < 0) :
    (pt_advance decoder size).2 = decoder := by
  match decoder with
  | none => rfl
  | some dec =>
    simp only [pt_advance] at herr ⊢
    split_ifs at herr ⊢
    · rfl
    · rfl
    · simp at herr

/-- Witness for C4: advancing past the end of a 10-byte buffer fails with a
negative status and leaves the decoder unchanged. -/
theorem pt_advance_error_frame_witness :
    (pt_advance (some ⟨0, 10, 5⟩) 100).2 = some ⟨0, 10, 5⟩ :=
  pt_advance_error_frame (some ⟨0, 10, 5⟩) 100 (by decide)

/-! ### Mapped section reads (`pt_sec_windows_read`, pt_section_windows.c)

The mapping produced by `pt_sec_windows_map` exposes the half-open address
range `[begin, end)` of mapped bytes (`struct pt_sec_windows_mapping`); the
byte stored at each mapped address is embedded as a function on addresses.
Pointer arithmetic is embedded on `Nat` addresses, which follows the C
abstract machine where pointer arithmetic never wraps; the C function's
defensive `end < begin` and `begin < mapping->begin` overflow checks are
kept, though they cannot fire on `Nat`.  The caller's non-NULL buffer is
represented by returning the list of bytes the `memcpy` stores in it. -/

structure SecMapping where
  mbegin : Nat
  mend : Nat
  content : Nat → Nat

/-- Function `pt_sec_windows_read` (pt_section_windows.c): copy up to `size`
bytes of the mapping starting at byte `offset`, clamping the end of the read
at `mapping->end`; fail with `-pte_nomap` when `offset` lies at or past the
end of the mapped range, and with `-pte_internal` when the section is not
mapped.  Returns the status (byte count on success) and the copied bytes. -/
def pt_sec_windows_read (mapping : Option SecMapping) (size : Nat)
    (offset : Nat) : Int × List Nat :=
  match mapping with
  | none => (-pte_internal, [])
  | some m =>
    let b := m.mbegin + offset
    let e := b + size
    if e < b then (-pte_nomap, [])
    else if m.mend ≤ b then (-pte_nomap, [])
    else if b < m.mbegin then (-pte_nomap, [])
    else
      let e2 := if m.mend < e then m.mend else e
      let bytes := e2 - b
      ((bytes : Int), (List.range bytes).map fun i => m.content (b + i))

/-- C5: reading a mapped section at an in-range offset copies exactly
`min size (length - offset)` bytes — a read crossing the section boundary is
truncated at the boundary — and returns that count; reading at or past the
end of the mapped range returns `-pte_nomap` and copies nothing. -/
theorem pt_sec_windows_read_boundary (m : SecMapping) (size offset : Nat)
    (hm : m.mbegin ≤ m.mend) :
    (offset < m.mend - m.mbegin →
      (pt_sec_windows_read (some m) size offset).1 =
        ((min size (m.mend - m.mbegin - offset) : Nat) : Int) ∧
      (pt_sec_windows_read (some m) size offset).2 =
        (List.range (min size (m.mend - m.mbegin - offset))).map
          (fun i => m.content (m.mbegin + offset + i)) ∧
      (pt_sec_windows_read (some m) size offset).2.length =
        min size (m.mend - m.mbegin - offset)) ∧
    (m.mend - m.mbegin ≤ offset →
      pt_sec_windows_read (some m) size offset = (-pte_nomap, [])) := by
  constructor
  · intro hin
    have h1 : ¬ (m.mbegin + offset + size < m.mbegin + offset) := by omega
    have h2 : ¬ (m.mend ≤ m.mbegin + offset) := by omega
    have h3 : ¬ (m.mbegin + offset < m.mbegin) := by omega
    have hbytes :
        (if m.mend < m.mbegin + offset + size then m.mend
          else m.mbegin + offset + size) - (m.mbegin + offset) =
        min size (m.mend - m.mbegin - offset) := by
      split <;> omega
    simp only [pt_sec_windows_read, if_neg h1, if_neg h2, if_neg h3, hbytes]
    simp
  · intro hout
    have h1 : ¬ (m.mbegin + offset + size < m.mbegin + offset) := by omega
    have h2 : m.mend ≤ m.mbegin + offset := by omega
    simp only [pt_sec_windows_read, if_neg h1, if_pos h2]

/-- Witness for C5: a 10-byte mapping at addresses 100..110 whose byte at
address `a` is `a`; reading 20 bytes at offset 4 is truncated to 6 bytes, and
reading at offset 10 fails with `-pte_nomap`. -/
theorem pt_sec_windows_read_boundary_witness :
    ((4 : Nat) < 110 - 100 →
      (pt_sec_windows_read (some ⟨100, 110, fun a => a⟩) 20 4).1 =
        ((min 20 (110 - 100 - 4) : Nat) : Int) ∧
      (pt_sec_windows_read (some ⟨100, 110, fun a => a⟩) 20 4).2 =
        (List.range (min 20 (110 - 100 - 4))).map (fun i => 100 + 4 + i) ∧
      (pt_sec_windows_read (some ⟨100, 110, fun a => a⟩) 20 4).2.length =
        min 20 (110 - 100 - 4)) ∧
    ((110 : Nat) - 100 ≤ 10 →
      pt_sec_windows_read (some ⟨100, 110, fun a => a⟩) 20 10 =
        (-pte_nomap, [])) :=
  ⟨(pt_sec_windows_read_boundary ⟨100, 110, fun a => a⟩ 20 4 (by decide)).1,
   (pt_sec_windows_read_boundary ⟨100, 110, fun a => a⟩ 20 10 (by decide)).2⟩

/-! ### Section mapping (`pt_section_map`, `check_file_status`,
`pt_section_mk_status`, pt_section_windows.c)

The fields of `struct pt_section` that `pt_section_map` touches are embedded
directly: the `uint16_t` map count `mcount`, the installed mapping (standing
for the `mapping`, `read` and `unmap` fields set together by
`pt_sec_windows_map` / `pt_sec_file_map`), the file name and the
`pt_sec_windows_status` recorded by `pt_section_mk_status` (the `_stat`
fields the code compares: `st_size` and `st_mtime`).  The interactions with
the operating system — `CreateFile`, `_open_osfhandle`, `_fstat`, the two
mapping back ends and `_fdopen` — are inputs of the function, collected in a
`MapEnv` record giving each call's outcome; the per-section lock always
succeeds (concurrency is not modelled). -/

/-- The file-status fields compared by `check_file_status`: `st_size` and
`st_mtime` of `struct _stat`. -/
structure FileStat where
  st_size : Int
  st_mtime : Int
deriving DecidableEq, Repr

/-- The `struct pt_section` fields read and written by `pt_section_map`. -/
structure PtSection where
  mcount : Nat
  mapping : Option Nat
  filename : Option Nat
  status : Option FileStat
deriving DecidableEq, Repr

/-- Outcomes of the system calls `pt_section_map` makes, in program order. -/
structure MapEnv where
  openOk : Bool
  osfOk : Bool
  fstatResult : Option FileStat
  winMapResult : Int
  winHandle : Nat
  fdopenOk : Bool
  fileMapResult : Int
  fileHandle : Nat
deriving DecidableEq, Repr

/-- Function `check_file_status` (pt_section_windows.c): re-`fstat` the newly
opened file and compare its size and modification time against the values
recorded in the section's status; any difference (or a failing `_fstat`)
yields `-pte_bad_image`. -/
def check_file_status (sec : PtSection) (fstatResult : Option FileStat) : Int :=
  match fstatResult with
  | none => -pte_bad_image
  | some st =>
    match sec.status with
    | none => -pte_internal
    | some recorded =>
      if st.st_size ≠ recorded.st_size then -pte_bad_image
      else if st.st_mtime ≠ recorded.st_mtime then -pte_bad_image
      else 0

/-- Function `pt_section_map` (pt_section_windows.c).  The map count is a
`uint16_t`, so the increment wraps at `65536`; a count that is already
positive is simply incremented (`mcount > 1` branch), a wrapped count of zero
is rejected with `-pte_internal`.  A first mapping opens the file, checks the
recorded file status, and installs the Windows file mapping, falling back to
the file-based mapping; every error path leaves the section unchanged.
Returns the status and the section after the call. -/
def pt_section_map (sec : PtSection) (env : MapEnv) : Int × PtSection :=
  let mcount := (sec.mcount + 1) % 65536
  if 1 < mcount then (0, { sec with mcount := mcount })
  else if mcount = 0 then (-pte_internal, sec)
  else if sec.mapping.isSome then (-pte_internal, sec)
  else if sec.filename.isNone then (-pte_internal, sec)
  else if env.openOk = false then (-pte_bad_image, sec)
  else if env.osfOk = false then (-pte_bad_image, sec)
  else if check_file_status sec env.fstatResult < 0 then (-pte_bad_image, sec)
  else if env.winMapResult = 0 then
    (0, { sec with mcount := 1, mapping := some env.winHandle })
  else if env.fdopenOk = false then (-pte_bad_image, sec)
  else if env.fileMapResult = 0 then
    (0, { sec with mcount := 1, mapping := some env.fileHandle })
  else (env.fileMapResult, sec)

/-- C6: when the file opened by `pt_section_map` shows a size or modification
time different from the values recorded when the section's status was
created, the call fails with `-pte_bad_image` and the section is unchanged:
the map count stays 0 and no mapping is installed. -/
theorem pt_section_map_stat_mismatch (sec : PtSection) (env : MapEnv)
    (recorded st : FileStat)
    (hcount : sec.mcount = 0) (hmap : sec.mapping = none)
    (hname : sec.filename.isSome)
    (hstatus : sec.status = some recorded)
    (hopen : env.openOk = true) (hosf : env.osfOk = true)
    (hfstat : env.fstatResult = some st)
    (hdiff : st.st_size ≠ recorded.st_size ∨ st.st_mtime ≠ recorded.st_mtime) :
    pt_section_map sec env = (-pte_bad_image, sec) := by
  have hchk : check_file_status sec env.fstatResult = -pte_bad_image := by
    by_cases hsz : st.st_size = recorded.st_size
    · have hmt : st.st_mtime ≠ recorded.st_mtime := by
        rcases hdiff with h | h
        · exact absurd hsz h
        · exact h
      simp [check_file_status, hfstat, hstatus, hsz, hmt]
    · simp [check_file_status, hfstat, hstatus, hsz]
  have hchk2 : check_file_status sec env.fstatResult < 0 := by
    rw [hchk]
    decide
  simp only [pt_section_map, hcount, hmap, hopen, hosf,
    Option.isSome_none, Option.isNone_iff_eq_none]
  rw [if_neg (by decide), if_neg (by decide), if_neg (by simp),
    if_neg (by simp [Option.isNone_iff_eq_none, ← Option.isSome_iff_ne_none, hname]),
    if_neg (by simp), if_neg (by simp), if_pos hchk2]

/-- Witness for C6: an unmapped section whose recorded status is size 100,
mtime 5, while the re-opened file shows size 101: the map fails with
`-pte_bad_image` and the section is unchanged. -/
theorem pt_section_map_stat_mismatch_witness :
    pt_section_map ⟨0, none, some 1, some ⟨100, 5⟩⟩
      ⟨true, true, some ⟨101, 5⟩, 0, 7, true, 0, 8⟩ =
    (-pte_bad_image, ⟨0, none, some 1, some ⟨100, 5⟩⟩) :=
  pt_section_map_stat_mismatch ⟨0, none, some 1, some ⟨100, 5⟩⟩
    ⟨true, true, some ⟨101, 5⟩, 0, 7, true, 0, 8⟩ ⟨100, 5⟩ ⟨101, 5⟩
    rfl rfl rfl rfl rfl rfl rfl (Or.inl (by decide))

/-- C7 (amended): calling `pt_section_map` on a section that is already
mapped with a map count between 1 and 65534 only increments the count and
returns success, leaving the installed mapping, the file name and the
recorded status untouched and consulting no system call; at the `uint16_t`
saturation point `mcount = 65535` the increment would wrap, and the call
instead returns `-pte_internal` with the section unchanged. -/
theorem pt_section_map_already_mapped (sec : PtSection) (env : MapEnv)
    (hge : 1 ≤ sec.mcount) (hle : sec.mcount ≤ 65534) :
    pt_section_map sec env = (0, { sec with mcount := sec.mcount + 1 }) := by
  have hmod : (sec.mcount + 1) % 65536 = sec.mcount + 1 := by
    apply Nat.mod_eq_of_lt
    omega
  simp only [pt_section_map, hmod]
  rw [if_pos (show 1 < sec.mcount + 1 by omega)]

/-- Witness for C7 at a concrete section with map count 3. -/
theorem pt_section_map_already_mapped_witness :
    pt_section_map ⟨3, some 7, some 1, some ⟨100, 5⟩⟩
      ⟨true, true, some ⟨100, 5⟩, 0, 7, true, 0, 8⟩ =
    (0, ⟨4, some 7, some 1, some ⟨100, 5⟩⟩) :=
  pt_section_map_already_mapped ⟨3, some 7, some 1, some ⟨100, 5⟩⟩
    ⟨true, true, some ⟨100, 5⟩, 0, 7, true, 0, 8⟩ (by decide) (by decide)

/-- Counterexample to C7 as stated: a section whose map count is at the
`uint16_t` maximum 65535 — certainly `≥ 1` — on which `pt_section_map` does
not return success: the wrapped count is caught by the `!mcount` check and
the call returns `-pte_internal`, leaving the count unchanged. -/
theorem pt_section_map_saturation_cex :
    1 ≤ (⟨65535, some 7, some 1, some ⟨100, 5⟩⟩ : PtSection).mcount ∧
    pt_section_map ⟨65535, some 7, some 1, some ⟨100, 5⟩⟩
      ⟨true, true, some ⟨100, 5⟩, 0, 7, true, 0, 8⟩ =
    (-pte_internal, ⟨65535, some 7, some 1, some ⟨100, 5⟩⟩) ∧
    (-pte_internal : Int) ≠ 0 := by
  refine ⟨by decide, by decide, by decide⟩
